import Mathlib

/-!
# Verification of the GitHub repository sync lambda

A shallow embedding of `src/lambda/github_sync.py` and proofs about it.

Python/JSON values are embedded as the inductive type `PyVal`; Python dicts
are association lists with unique keys (lookup takes the first match, which
coincides with Python dict lookup under that representation invariant).
External collaborators are modelled as oracles or explicit inputs:
`json.loads` is an oracle `parse : String -> Option PyVal` (`Option.none`
means a `JSONDecodeError`), the secret backend response is an
`Option String` (the `SecretString` field, absent or present), and the
network is an `HttpOutcome`.  Impure timestamps (`datetime.now`) are passed
as explicit string parameters.  `String.trim` models Python `str.strip()`
for the whitespace that actually occurs in the inputs considered here.
-/

namespace GithubSync

/-- Embedded Python/JSON value.  Numeric JSON values are modelled as `Int`;
no claim involves fractional numbers. -/
inductive PyVal where
  | none
  | bool (b : Bool)
  | int (n : Int)
  | str (s : String)
  | list (xs : List PyVal)
  | dict (kvs : List (String × PyVal))

/-- Models Python `str.strip()`: drops leading and trailing whitespace.
Implemented over the character list so that it evaluates by `rfl`; the
whitespace set is the one occurring in the inputs considered here. -/
def strip (s : String) : String :=
  ⟨((s.data.dropWhile Char.isWhitespace).reverse.dropWhile Char.isWhitespace).reverse⟩

/-- First-match association-list lookup; models `dict.get(key)` returning
`Option.none` when the key is absent (Python `None` from a missing key is
distinguished from a present `PyVal.none` value by the `Option` layer). -/
def lookupStr : List (String × PyVal) → String → Option PyVal
  | [], _ => Option.none
  | (k, v) :: rest, key => if k = key then some v else lookupStr rest key

/-- Models `dict.get(key, default)`. -/
def getD (kvs : List (String × PyVal)) (key : String) (d : PyVal) : PyVal :=
  match lookupStr kvs key with
  | some v => v
  | Option.none => d

/-- The distinct failure messages raised (as `RuntimeError` or by the Python
runtime) in `github_sync.py`, one constructor per raise site. -/
inductive RErr where
  | secretMissing
  | secretEmpty
  | secretJsonNoToken
  | githubHttp (code : Nat) (body : String)
  | githubNetwork (reason : String)
  | jsonDecode
  | unexpectedPayload
  | typeError
deriving DecidableEq, Repr

/-- The fixed priority key list searched in `_load_token`. -/
def priorityKeys : List String :=
  ["token", "Token", "PAT", "pat", "github_token", "githubToken", "value"]

/-- The `for key in (...)` loop of `_load_token`: first key whose value is a
string with non-empty strip; the stripped candidate is taken. -/
def searchKeys (kvs : List (String × PyVal)) : List String → Option String
  | [] => Option.none
  | k :: ks =>
    match lookupStr kvs k with
    | some (PyVal.str c) => if strip c = "" then searchKeys kvs ks else some (strip c)
    | _ => searchKeys kvs ks

/-- The priority-ordered search over the seven recognized keys. -/
def firstPriorityToken (kvs : List (String × PyVal)) : Option String :=
  searchKeys kvs priorityKeys

/-- The fallback `for value in payload.values()` loop of `_load_token`. -/
def firstStrValue : List (String × PyVal) → Option String
  | [] => Option.none
  | (_, PyVal.str v) :: rest => if strip v = "" then firstStrValue rest else some (strip v)
  | _ :: rest => firstStrValue rest

/-- The `elif isinstance(payload, list)` loop of `_load_token`. -/
def firstStrItem : List PyVal → Option String
  | [] => Option.none
  | PyVal.str v :: rest => if strip v = "" then firstStrItem rest else some (strip v)
  | _ :: rest => firstStrItem rest

/-- `candidate_value` computed from a successfully parsed secret payload. -/
def candidateOf : PyVal → Option String
  | PyVal.dict kvs =>
    (match firstPriorityToken kvs with
     | some t => some t
     | Option.none => firstStrValue kvs)
  | PyVal.list xs => firstStrItem xs
  | _ => Option.none

/-- Models `secret_value.startswith("\x7b")`: first character is `\x7b`. -/
def startsLbrace (s : String) : Bool :=
  match s.data with
  | [] => false
  | c :: _ => c = '\x7b'

/-- The body of `_load_token` past the cache check: contacts the backend
(`resp` is the `SecretString` field of the response) and resolves a token.
Returns (result, cache afterwards, backend contacted).  On failure the
incoming cache is returned unchanged, mirroring that a raised exception
leaves `_cached_secret` untouched. -/
def loadTokenFresh (parse : String → Option PyVal) (cache : Option String)
    (resp : Option String) : Except RErr String × Option String × Bool :=
  match resp with
  | Option.none => (Except.error RErr.secretMissing, cache, true)
  | some s =>
    if s = "" then (Except.error RErr.secretMissing, cache, true)
    else if strip s = "" then (Except.error RErr.secretEmpty, cache, true)
    else if startsLbrace (strip s) then
      match parse (strip s) with
      | some p =>
        (match candidateOf p with
         | some cand => (Except.ok cand, some cand, true)
         | Option.none => (Except.error RErr.secretJsonNoToken, cache, true))
      | Option.none => (Except.ok (strip s), some (strip s), true)
    else (Except.ok (strip s), some (strip s), true)

/-- Models `_load_token`, with the process-wide `_cached_secret` threaded
explicitly.  The cache test is Python truthiness: `if _cached_secret:` is a
hit only for a present, non-empty cached string. -/
def load_token (parse : String → Option PyVal) (cache : Option String)
    (resp : Option String) : Except RErr String × Option String × Bool :=
  match cache with
  | some c => if c = "" then loadTokenFresh parse cache resp else (Except.ok c, cache, false)
  | Option.none => loadTokenFresh parse cache resp

/-- Repeated `_load_token` calls in one process: threads the module-level
cache through a sequence of backend responses.  Each output entry records
(result, backend contacted, cache after the call). -/
def runLoads (parse : String → Option PyVal) :
    Option String → List (Option String) → List (Except RErr String × Bool × Option String)
  | _, [] => []
  | cache, r :: rs =>
    match load_token parse cache r with
    | (res, cacheAfter, called) => (res, called, cacheAfter) :: runLoads parse cacheAfter rs

/-- Final outcome of the `urlopen` call: either an HTTP response (the one
`urlopen` resolves to; per the `urllib` contract a non-2xx status raises
`HTTPError` carrying status and body) or a transport-level `URLError`. -/
inductive HttpOutcome where
  | response (status : Nat) (body : String)
  | netFailure (reason : String)

/-- Models `_github_request`: wraps `HTTPError` as the GitHub API error
carrying status code and body text, wraps `URLError` as a network error,
and on success parses the body as JSON (an uncaught `JSONDecodeError` is
the `jsonDecode` outcome). -/
def github_request (parse : String → Option PyVal) : HttpOutcome → Except RErr PyVal
  | HttpOutcome.response st body =>
    if 200 ≤ st ∧ st ≤ 299 then
      match parse body with
      | some v => Except.ok v
      | Option.none => Except.error RErr.jsonDecode
    else Except.error (RErr.githubHttp st body)
  | HttpOutcome.netFailure reason => Except.error (RErr.githubNetwork reason)

/-- Models `_transform_repo` on a raw dict; `now` is the impure
`datetime.now(timezone.utc).isoformat()` value passed explicitly. -/
def transform_repo (now : String) (raw : List (String × PyVal)) : PyVal :=
  PyVal.dict
    [("repo", getD raw "full_name" PyVal.none),
     ("displayName", getD raw "name" PyVal.none),
     ("summary", getD raw "description" PyVal.none),
     ("description", getD raw "description" PyVal.none),
     ("htmlUrl", getD raw "html_url" PyVal.none),
     ("homepage", getD raw "homepage" PyVal.none),
     ("stars", getD raw "stargazers_count" PyVal.none),
     ("language", getD raw "language" PyVal.none),
     ("topics", getD raw "topics" (PyVal.list [])),
     ("lastPush",
       match getD raw "pushed_at" PyVal.none with
       | PyVal.str s => PyVal.str s
       | _ => PyVal.none),
     ("sync", PyVal.dict
       [("status", PyVal.str "ok"),
        ("statusMessage", PyVal.none),
        ("fetchedAt", PyVal.str now)])]

/-- Field access on a transformed record (a `PyVal.dict`). -/
def projGet (p : PyVal) (key : String) : Option PyVal :=
  match p with
  | PyVal.dict kvs => lookupStr kvs key
  | _ => Option.none

/-- `_transform_repo` applied to an arbitrary list element: calling `.get`
on a non-dict raises `AttributeError`, modelled as `Option.none`. -/
def transformVal (now : String) : PyVal → Option PyVal
  | PyVal.dict kvs => some (transform_repo now kvs)
  | _ => Option.none

/-- The list comprehension in `build_payload`, with a per-record timestamp
oracle (each `_transform_repo` call reads the clock independently). -/
def mapTransform (fetchNow : Nat → String) : Nat → List PyVal → Option (List PyVal)
  | _, [] => some []
  | i, r :: rs =>
    match transformVal (fetchNow i) r with
    | some t =>
      (match mapTransform fetchNow (i + 1) rs with
       | some ts => some (t :: ts)
       | Option.none => Option.none)
    | Option.none => Option.none

/-- Models `build_payload`. -/
def build_payload (genNow : String) (fetchNow : Nat → String) (repos : List PyVal) :
    Option PyVal :=
  match mapTransform fetchNow 0 repos with
  | some projects =>
    some (PyVal.dict
      [("generatedAt", PyVal.str genNow),
       ("source", PyVal.str "aws-lambda"),
       ("projects", PyVal.list projects)])
  | Option.none => Option.none

/-- The sort key function `lambda item: item.get("pushed_at", "")`;
`Option.none` is the `AttributeError` raised when the element is not a
dict. -/
def sortKeyOf : PyVal → Option PyVal
  | PyVal.dict kvs => some (getD kvs "pushed_at" (PyVal.str ""))
  | _ => Option.none

/-- Python `<` on the value shapes that can occur as a sort key here
(strings, integers); every other combination — in particular `None`
against a string — raises `TypeError`, modelled as `Option.none`. -/
def pyLt : PyVal → PyVal → Option Bool
  | PyVal.str a, PyVal.str b => some (decide (a.data < b.data))
  | PyVal.int a, PyVal.int b => some (decide (a < b))
  | _, _ => Option.none

/-- `sorted` first computes the key of every element (decorate phase);
a key-computation failure aborts before any comparison. -/
def computeKeys : List PyVal → Option (List (PyVal × PyVal))
  | [] => some []
  | r :: rs =>
    match sortKeyOf r with
    | some k => (computeKeys rs).map (fun t => (r, k) :: t)
    | Option.none => Option.none

/-- Stable descending insertion of a decorated element: the incoming
element goes in front of the first element whose key is not greater,
so an earlier element precedes later equal-key ones. -/
def insertPairDesc (x : PyVal × PyVal) : List (PyVal × PyVal) → Option (List (PyVal × PyVal))
  | [] => some [x]
  | y :: ys =>
    match pyLt x.2 y.2 with
    | some true => (insertPairDesc x ys).map (fun t => y :: t)
    | some false => some (x :: y :: ys)
    | Option.none => Option.none

/-- Stable sort of the decorated list, propagating comparison failures. -/
def sortPairsDesc : List (PyVal × PyVal) → Option (List (PyVal × PyVal))
  | [] => some []
  | x :: xs =>
    match sortPairsDesc xs with
    | some s => insertPairDesc x s
    | Option.none => Option.none

/-- Models `sorted(repos, key=lambda item: item.get("pushed_at", ""),
reverse=True)`: a stable descending sort, `Option.none` when the Python
call would raise (`AttributeError` computing a key or `TypeError`
comparing incomparable keys). -/
def pySortDesc (repos : List PyVal) : Option (List PyVal) :=
  match computeKeys repos with
  | some keyed => (sortPairsDesc keyed).map (List.map Prod.fst)
  | Option.none => Option.none

/-- Python slice `l[:n]` for an integer bound `n` (negative bounds count
from the end). -/
def pySliceTo (n : Int) (l : List α) : List α :=
  if 0 ≤ n then l.take n.toNat else l.take (l.length - (-n).toNat)

/-- The invocation configuration read from the environment. -/
structure Config where
  username : String
  bucket : String
  objectKey : String
  secretArn : String
  repoLimit : Int

/-- The summary record returned by `lambda_handler`. -/
structure InvocationResult where
  status : String
  bucket : String
  key : String
  count : Nat
deriving DecidableEq, Repr

/-- One `put_object` call observed at the object sink. -/
structure PutCall where
  bucket : String
  key : String
  body : PyVal

/-- The repositories list endpoint built by `lambda_handler`. -/
def apiUrl (username : String) : String :=
  "https://api.github.com/users/" ++ username ++ "/repos?per_page=100&sort=updated"

/-- Models `lambda_handler`: resolves the credential, fetches, checks the
payload shape, sorts, truncates, transforms, persists.  Returns the
result (or the propagated error), the list of sink writes performed, and
the credential cache afterwards. -/
def lambda_handler (parse : String → Option PyVal) (cfg : Config) (cache : Option String)
    (secretResp : Option String) (http : HttpOutcome) (genNow : String)
    (fetchNow : Nat → String) :
    Except RErr InvocationResult × List PutCall × Option String :=
  match load_token parse cache secretResp with
  | (Except.error e, cacheAfter, _) => (Except.error e, [], cacheAfter)
  | (Except.ok _, cacheAfter, _) =>
    match github_request parse http with
    | Except.error e => (Except.error e, [], cacheAfter)
    | Except.ok payload =>
      match payload with
      | PyVal.list repos =>
        (match pySortDesc repos with
         | some sortedRepos =>
           (match build_payload genNow fetchNow (pySliceTo cfg.repoLimit sortedRepos) with
            | some pl =>
              (Except.ok
                 { status := "ok", bucket := cfg.bucket, key := cfg.objectKey,
                   count := (pySliceTo cfg.repoLimit sortedRepos).length },
               [{ bucket := cfg.bucket, key := cfg.objectKey, body := pl }], cacheAfter)
            | Option.none => (Except.error RErr.typeError, [], cacheAfter))
         | Option.none => (Except.error RErr.typeError, [], cacheAfter))
      | _ => (Except.error RErr.unexpectedPayload, [], cacheAfter)

/-- Sort key of a record as a character list, with the same defaulting as
the code: the `pushed_at` string if the record is a dict holding one, `""`
otherwise.  Total, so it can serve as the key of the reference sort. -/
def keyData (r : PyVal) : List Char :=
  match sortKeyOf r with
  | some (PyVal.str s) => s.data
  | _ => []

/-- The descending order the orchestrator sorts by: `a` may precede `b`
when `b`'s key does not exceed `a`'s. -/
def descRel (a b : PyVal) : Prop := keyData b ≤ keyData a

instance : DecidableRel descRel :=
  fun a b => inferInstanceAs (Decidable (keyData b ≤ keyData a))

instance : IsTotal PyVal descRel :=
  ⟨fun a b => le_total (keyData b) (keyData a)⟩

instance : IsTrans PyVal descRel :=
  ⟨fun _ _ _ hab hbc => le_trans hbc hab⟩

/-- A record that conforms to the RawRepository data model as far as the
sort is concerned: it is a dict and its sort key (the `pushed_at` value,
defaulted to `""` when the field is absent) is a string. -/
def isGoodRepo (r : PyVal) : Bool :=
  match sortKeyOf r with
  | some (PyVal.str _) => true
  | _ => false

/-- Concrete raw records for the sort example of the spec. -/
def repoPushed2023 : PyVal :=
  PyVal.dict [("full_name", PyVal.str "user/alpha"), ("pushed_at", PyVal.str "2023-01-01")]

/-- A raw record whose `pushed_at` field is present and null. -/
def repoPushedNull : PyVal :=
  PyVal.dict [("full_name", PyVal.str "user/beta"), ("pushed_at", PyVal.none)]

/-- A raw record pushed most recently. -/
def repoPushed2024 : PyVal :=
  PyVal.dict [("full_name", PyVal.str "user/gamma"), ("pushed_at", PyVal.str "2024-06-01")]

/-- A raw record lacking the `pushed_at` key entirely. -/
def repoNoPush : PyVal :=
  PyVal.dict [("full_name", PyVal.str "user/delta")]

/-- A parse oracle used by concrete witnesses: decodes the fixed body
`"body1"` to the three-record list of the sort example, and decodes the
brace-led secret `"\x7bd"` to a JSON object holding both `pat` and
`token`. -/
def parseFix : String → Option PyVal := fun u =>
  if u = "body1" then some (PyVal.list [repoPushed2023, repoPushedNull, repoPushed2024])
  else if u = "\x7bd" then
    some (PyVal.dict [("pat", PyVal.str "p1"), ("token", PyVal.str "t1")])
  else Option.none

/-- A parse oracle that always fails (`JSONDecodeError` on any input). -/
def parseNever : String → Option PyVal := fun _ => Option.none

/-- A fixed configuration for concrete witnesses, with `repoLimit = 2` as
in the spec's sort example. -/
def cfgFix : Config :=
  { username := "user", bucket := "site-bucket", objectKey := "projects.json",
    secretArn := "arn:secret", repoLimit := 2 }

/-! ## Supporting lemmas -/

theorem searchKeys_head_found (kvs : List (String × PyVal)) (k : String) (ks : List String)
    (tok : String) (hlk : lookupStr kvs k = some (PyVal.str tok)) (hne : strip tok ≠ "") :
    searchKeys kvs (k :: ks) = some (strip tok) := by
  simp only [searchKeys, hlk]
  rw [if_neg hne]

theorem good_sortKey (r : PyVal) (h : isGoodRepo r = true) :
    sortKeyOf r = some (PyVal.str ⟨keyData r⟩) := by
  cases hk : sortKeyOf r with
  | none => simp only [isGoodRepo, hk] at h; exact Bool.noConfusion h
  | some v =>
    cases v with
    | str s => simp only [keyData, hk]
    | none => simp only [isGoodRepo, hk] at h; exact Bool.noConfusion h
    | bool b => simp only [isGoodRepo, hk] at h; exact Bool.noConfusion h
    | int n => simp only [isGoodRepo, hk] at h; exact Bool.noConfusion h
    | list xs => simp only [isGoodRepo, hk] at h; exact Bool.noConfusion h
    | dict kvs => simp only [isGoodRepo, hk] at h; exact Bool.noConfusion h

theorem computeKeys_good (l : List PyVal) :
    (∀ r ∈ l, isGoodRepo r = true) →
    computeKeys l = some (l.map fun r => (r, PyVal.str ⟨keyData r⟩)) := by
  induction l with
  | nil => intro _; rfl
  | cons x xs ih =>
    intro h
    have hx := good_sortKey x (h x (List.mem_cons_self x xs))
    have hxs := ih (fun r hr => h r (List.mem_cons_of_mem x hr))
    simp [computeKeys, hx, hxs]

theorem insertPair_good (x : PyVal) (l : List PyVal) :
    insertPairDesc (x, PyVal.str ⟨keyData x⟩) (l.map fun r => (r, PyVal.str ⟨keyData r⟩)) =
      some ((List.orderedInsert descRel x l).map fun r => (r, PyVal.str ⟨keyData r⟩)) := by
  induction l with
  | nil => rfl
  | cons y ys ih =>
    by_cases hxy : keyData x < keyData y
    · have hlt : pyLt (PyVal.str ⟨keyData x⟩) (PyVal.str ⟨keyData y⟩) = some true := by
        show some (decide (keyData x < keyData y)) = some true
        rw [decide_eq_true hxy]
      have hr : ¬ descRel x y := not_le.mpr hxy
      simp [insertPairDesc, hlt, ih, List.orderedInsert, if_neg hr]
    · have hlt : pyLt (PyVal.str ⟨keyData x⟩) (PyVal.str ⟨keyData y⟩) = some false := by
        show some (decide (keyData x < keyData y)) = some false
        rw [decide_eq_false hxy]
      have hr : descRel x y := not_lt.mp hxy
      simp [insertPairDesc, hlt, List.orderedInsert, if_pos hr]

theorem sortPairs_good (l : List PyVal) :
    sortPairsDesc (l.map fun r => (r, PyVal.str ⟨keyData r⟩)) =
      some ((List.insertionSort descRel l).map fun r => (r, PyVal.str ⟨keyData r⟩)) := by
  induction l with
  | nil => rfl
  | cons x xs ih =>
    simp only [List.map, sortPairsDesc, ih, List.insertionSort]
    exact insertPair_good x (List.insertionSort descRel xs)

theorem pySortDesc_good (l : List PyVal) (h : ∀ r ∈ l, isGoodRepo r = true) :
    pySortDesc l = some (List.insertionSort descRel l) := by
  unfold pySortDesc
  rw [computeKeys_good l h]
  show (sortPairsDesc (l.map fun r => (r, PyVal.str ⟨keyData r⟩))).map (List.map Prod.fst) =
    some (List.insertionSort descRel l)
  rw [sortPairs_good]
  show some (List.map Prod.fst ((List.insertionSort descRel l).map
    fun r => (r, PyVal.str ⟨keyData r⟩))) = some (List.insertionSort descRel l)
  rw [List.map_map]
  exact congrArg some (List.map_id' (List.insertionSort descRel l))

theorem filter_orderedInsert (x : PyVal) (k : List Char) (l : List PyVal) :
    (List.orderedInsert descRel x l).filter (fun r => decide (keyData r = k)) =
      if keyData x = k then x :: l.filter (fun r => decide (keyData r = k))
      else l.filter (fun r => decide (keyData r = k)) := by
  induction l with
  | nil =>
    by_cases hk : keyData x = k
    · simp [List.filter_cons, hk]
    · simp [List.filter_cons, hk]
  | cons y ys ih =>
    by_cases hr : descRel x y
    · by_cases hk : keyData x = k
      · simp [List.orderedInsert, if_pos hr, List.filter_cons, hk]
      · simp [List.orderedInsert, if_pos hr, List.filter_cons, hk]
    · have hxy : keyData x < keyData y := not_le.mp hr
      by_cases hk : keyData x = k
      · have hyk : keyData y ≠ k := hk ▸ ne_of_gt hxy
        simp [List.orderedInsert, if_neg hr, List.filter_cons, ih, hk, hyk]
      · simp [List.orderedInsert, if_neg hr, List.filter_cons, ih, hk]

theorem filter_insertionSort (k : List Char) (l : List PyVal) :
    (List.insertionSort descRel l).filter (fun r => decide (keyData r = k)) =
      l.filter (fun r => decide (keyData r = k)) := by
  induction l with
  | nil => rfl
  | cons x xs ih =>
    by_cases hk : keyData x = k
    · simp [List.insertionSort, filter_orderedInsert, ih, List.filter_cons, hk]
    · simp [List.insertionSort, filter_orderedInsert, ih, List.filter_cons, hk]

theorem searchKeys_some_ne (kvs : List (String × PyVal)) (ks : List String) :
    ∀ t, searchKeys kvs ks = some t → t ≠ "" := by
  induction ks with
  | nil => intro t h; exact Option.noConfusion h
  | cons k ks ih =>
    intro t h
    cases hl : lookupStr kvs k with
    | none => simp only [searchKeys, hl] at h; exact ih t h
    | some v =>
      cases v with
      | str c =>
        simp only [searchKeys, hl] at h
        by_cases hc : strip c = ""
        · rw [if_pos hc] at h; exact ih t h
        · rw [if_neg hc] at h; exact (Option.some.inj h) ▸ hc
      | none => simp only [searchKeys, hl] at h; exact ih t h
      | bool b => simp only [searchKeys, hl] at h; exact ih t h
      | int n => simp only [searchKeys, hl] at h; exact ih t h
      | list xs => simp only [searchKeys, hl] at h; exact ih t h
      | dict kvs2 => simp only [searchKeys, hl] at h; exact ih t h

theorem firstStrValue_some_ne (kvs : List (String × PyVal)) :
    ∀ t, firstStrValue kvs = some t → t ≠ "" := by
  induction kvs with
  | nil => intro t h; exact Option.noConfusion h
  | cons kv rest ih =>
    obtain ⟨k, v⟩ := kv
    intro t h
    cases v with
    | str c =>
      simp only [firstStrValue] at h
      by_cases hc : strip c = ""
      · rw [if_pos hc] at h; exact ih t h
      · rw [if_neg hc] at h; exact (Option.some.inj h) ▸ hc
    | none => simp only [firstStrValue] at h; exact ih t h
    | bool b => simp only [firstStrValue] at h; exact ih t h
    | int n => simp only [firstStrValue] at h; exact ih t h
    | list xs => simp only [firstStrValue] at h; exact ih t h
    | dict kvs2 => simp only [firstStrValue] at h; exact ih t h

theorem firstStrItem_some_ne (items : List PyVal) :
    ∀ t, firstStrItem items = some t → t ≠ "" := by
  induction items with
  | nil => intro t h; exact Option.noConfusion h
  | cons v rest ih =>
    intro t h
    cases v with
    | str c =>
      simp only [firstStrItem] at h
      by_cases hc : strip c = ""
      · rw [if_pos hc] at h; exact ih t h
      · rw [if_neg hc] at h; exact (Option.some.inj h) ▸ hc
    | none => simp only [firstStrItem] at h; exact ih t h
    | bool b => simp only [firstStrItem] at h; exact ih t h
    | int n => simp only [firstStrItem] at h; exact ih t h
    | list xs => simp only [firstStrItem] at h; exact ih t h
    | dict kvs2 => simp only [firstStrItem] at h; exact ih t h

theorem candidateOf_some_ne (p : PyVal) :
    ∀ t, candidateOf p = some t → t ≠ "" := by
  cases p with
  | dict kvs =>
    intro t h
    simp only [candidateOf] at h
    cases hf : firstPriorityToken kvs with
    | some u =>
      rw [hf] at h
      exact (Option.some.inj h) ▸ searchKeys_some_ne kvs priorityKeys u hf
    | none =>
      rw [hf] at h
      exact firstStrValue_some_ne kvs t h
  | list xs => intro t h; exact firstStrItem_some_ne xs t h
  | none => intro t h; exact Option.noConfusion h
  | bool b => intro t h; exact Option.noConfusion h
  | int n => intro t h; exact Option.noConfusion h
  | str c => intro t h; exact Option.noConfusion h

theorem loadTokenFresh_cases (parse : String → Option PyVal) (cache : Option String)
    (resp : Option String) :
    (∃ t, loadTokenFresh parse cache resp = (Except.ok t, some t, true) ∧ t ≠ "") ∨
    (∃ e, loadTokenFresh parse cache resp = (Except.error e, cache, true)) := by
  cases resp with
  | none => exact Or.inr ⟨RErr.secretMissing, rfl⟩
  | some s =>
    by_cases hse : s = ""
    · subst hse; exact Or.inr ⟨RErr.secretMissing, rfl⟩
    · by_cases hst : strip s = ""
      · right
        refine ⟨RErr.secretEmpty, ?_⟩
        simp only [loadTokenFresh]
        rw [if_neg hse, if_pos hst]
      · cases hsl : startsLbrace (strip s) with
        | false =>
          left
          refine ⟨strip s, ?_, hst⟩
          simp only [loadTokenFresh]
          rw [if_neg hse, if_neg hst,
            if_neg (show ¬(startsLbrace (strip s) = true) by rw [hsl]; decide)]
        | true =>
          cases hp : parse (strip s) with
          | none =>
            left
            refine ⟨strip s, ?_, hst⟩
            simp only [loadTokenFresh]
            rw [if_neg hse, if_neg hst, if_pos hsl, hp]
          | some p =>
            cases hc : candidateOf p with
            | none =>
              right
              refine ⟨RErr.secretJsonNoToken, ?_⟩
              simp only [loadTokenFresh]
              rw [if_neg hse, if_neg hst, if_pos hsl, hp]
              simp only [hc]
            | some cand =>
              left
              refine ⟨cand, ?_, candidateOf_some_ne p cand hc⟩
              simp only [loadTokenFresh]
              rw [if_neg hse, if_neg hst, if_pos hsl, hp]
              simp only [hc]

theorem load_token_hit (parse : String → Option PyVal) (resp : Option String) (t : String)
    (ht : t ≠ "") : load_token parse (some t) resp = (Except.ok t, some t, false) := by
  simp only [load_token]
  rw [if_neg ht]

theorem runLoads_hit (parse : String → Option PyVal) (resps : List (Option String))
    (t : String) (ht : t ≠ "") :
    runLoads parse (some t) resps = resps.map (fun _ => (Except.ok t, false, some t)) := by
  induction resps with
  | nil => rfl
  | cons r rs ih =>
    simp only [runLoads, load_token_hit parse r t ht, ih, List.map]

/-! ## Claim theorems -/

/-- C1: on the spec's own example — `pushed_at` values `"2023-01-01"`,
null, `"2024-06-01"` with `repoLimit = 2` — the sort-and-truncate step does
not produce the claimed two-record output: `dict.get` defaulting does not
apply to a present-but-null value, so `sorted` compares `None` with a
string and raises `TypeError`; the invocation fails and writes nothing. -/
theorem c1_sort_raises_on_null_pushed :
    pySortDesc [repoPushed2023, repoPushedNull, repoPushed2024] = Option.none ∧
    lambda_handler parseFix cfgFix Option.none (some "tok")
        (HttpOutcome.response 200 "body1") "GEN" (fun _ => "FETCH") =
      (Except.error RErr.typeError, [], some "tok") :=
  ⟨rfl, rfl⟩

/-- C9: for every response with a non-2xx HTTP status, the client fails
with the GitHub HTTP error carrying the original status code and the
response body text. -/
theorem c9_non2xx_http_error (parse : String → Option PyVal) (st : Nat) (body : String)
    (h : ¬(200 ≤ st ∧ st ≤ 299)) :
    github_request parse (HttpOutcome.response st body) =
      Except.error (RErr.githubHttp st body) := by
  simp only [github_request]
  rw [if_neg h]

/-- Witness for C9 at a concrete 404 response. -/
theorem c9_witness :
    github_request parseNever (HttpOutcome.response 404 "not found") =
      Except.error (RErr.githubHttp 404 "not found") :=
  c9_non2xx_http_error parseNever 404 "not found" (by decide)

/-- C4: the transformer is total on raw dicts; a record lacking `topics`
yields the empty list, a record whose `pushed_at` is missing or not a
string yields a null `lastPush`, and the nested sync block is fixed with
status `"ok"` and null `statusMessage`. -/
theorem c4_transform_total (now : String) (raw : List (String × PyVal)) :
    (lookupStr raw "topics" = Option.none →
      projGet (transform_repo now raw) "topics" = some (PyVal.list [])) ∧
    ((∀ s, lookupStr raw "pushed_at" ≠ some (PyVal.str s)) →
      projGet (transform_repo now raw) "lastPush" = some PyVal.none) ∧
    projGet (transform_repo now raw) "sync" =
      some (PyVal.dict [("status", PyVal.str "ok"), ("statusMessage", PyVal.none),
        ("fetchedAt", PyVal.str now)]) := by
  refine ⟨?_, ?_, rfl⟩
  · intro h
    show some (getD raw "topics" (PyVal.list [])) = some (PyVal.list [])
    simp only [getD]
    rw [h]
  · intro h
    have hshape : projGet (transform_repo now raw) "lastPush" =
        some (match getD raw "pushed_at" PyVal.none with
              | PyVal.str s => PyVal.str s
              | _ => PyVal.none) := rfl
    rw [hshape]
    simp only [getD]
    cases hl : lookupStr raw "pushed_at" with
    | none => rfl
    | some v =>
      cases v with
      | str s => exact absurd hl (h s)
      | none => rfl
      | bool b => rfl
      | int n => rfl
      | list xs => rfl
      | dict kvs => rfl

/-- Witness for C4 on the empty raw record. -/
theorem c4_witness :
    projGet (transform_repo "T0" []) "topics" = some (PyVal.list []) ∧
    projGet (transform_repo "T0" []) "lastPush" = some PyVal.none ∧
    projGet (transform_repo "T0" []) "sync" =
      some (PyVal.dict [("status", PyVal.str "ok"), ("statusMessage", PyVal.none),
        ("fetchedAt", PyVal.str "T0")]) := by
  obtain ⟨h1, h2, h3⟩ := c4_transform_total "T0" []
  exact ⟨h1 rfl, h2 (fun s hs => Option.noConfusion hs), h3⟩

/-- C10: when the raw record contains the `topics` key, its value — null
included — is passed through unchanged into the output record; the
empty-list default applies only when the key is entirely absent. -/
theorem c10_topics_passthrough (now : String) (raw : List (String × PyVal)) (v : PyVal) :
    (lookupStr raw "topics" = some v →
      projGet (transform_repo now raw) "topics" = some v) ∧
    (lookupStr raw "topics" = Option.none →
      projGet (transform_repo now raw) "topics" = some (PyVal.list [])) := by
  have hshape : projGet (transform_repo now raw) "topics" =
      some (getD raw "topics" (PyVal.list [])) := rfl
  constructor
  · intro h
    rw [hshape]
    simp only [getD]
    rw [h]
  · intro h
    rw [hshape]
    simp only [getD]
    rw [h]

/-- Witness for C10: a present-but-null `topics` value flows through as
null, not as a list. -/
theorem c10_witness :
    projGet (transform_repo "T0" [("topics", PyVal.none)]) "topics" = some PyVal.none :=
  (c10_topics_passthrough "T0" [("topics", PyVal.none)] PyVal.none).1 rfl

/-- C6: a secret payload whose stripped form is non-empty and does not
start with a brace is returned verbatim (stripped) as the credential. -/
theorem c6_plain_secret (parse : String → Option PyVal) (s : String)
    (h1 : strip s ≠ "") (h2 : startsLbrace (strip s) = false) :
    load_token parse Option.none (some s) =
      (Except.ok (strip s), some (strip s), true) := by
  have hs : s ≠ "" := by
    intro he; subst he; exact h1 rfl
  show loadTokenFresh parse Option.none (some s) = _
  simp only [loadTokenFresh]
  rw [if_neg hs, if_neg h1,
    if_neg (show ¬(startsLbrace (strip s) = true) by rw [h2]; decide)]

/-- Witness for C6 at a whitespace-padded plain token. -/
theorem c6_witness :
    load_token parseNever Option.none (some "  my-token  ") =
      (Except.ok "my-token", some "my-token", true) :=
  c6_plain_secret parseNever "  my-token  " (by decide) (by decide)

/-- C5: for a secret whose stripped payload parses as a JSON mapping, the
fixed priority order is searched and the first non-blank string value is
taken (stripped); in particular a `token` entry wins over a `pat` entry. -/
theorem c5_priority_order (parse : String → Option PyVal) (s : String)
    (kvs : List (String × PyVal)) (t : String)
    (h1 : startsLbrace (strip s) = true)
    (h2 : parse (strip s) = some (PyVal.dict kvs))
    (h3 : firstPriorityToken kvs = some t) :
    load_token parse Option.none (some s) = (Except.ok t, some t, true) ∧
    (∀ tok, lookupStr kvs "token" = some (PyVal.str tok) → strip tok ≠ "" →
      t = strip tok) := by
  have h0 : strip s ≠ "" := by
    intro he; rw [he] at h1; exact absurd h1 (by decide)
  have hs : s ≠ "" := fun he => h0 (by rw [he]; rfl)
  constructor
  · show loadTokenFresh parse Option.none (some s) = _
    simp only [loadTokenFresh]
    rw [if_neg hs, if_neg h0, if_pos h1, h2]
    simp only [candidateOf, h3]
  · intro tok hlk hne
    have h4 : firstPriorityToken kvs = some (strip tok) :=
      searchKeys_head_found kvs "token"
        ["Token", "PAT", "pat", "github_token", "githubToken", "value"] tok hlk hne
    rw [h3] at h4
    exact Option.some.inj h4

/-- Witness for C5: a mapping holding both `pat` and `token` resolves to
the `token` value. -/
theorem c5_witness :
    load_token parseFix Option.none (some "\x7bd") =
      (Except.ok "t1", some "t1", true) ∧
    ("t1" : String) = strip "t1" := by
  have h := c5_priority_order parseFix "\x7bd"
    [("pat", PyVal.str "p1"), ("token", PyVal.str "t1")] "t1" rfl rfl rfl
  exact ⟨h.1, h.2 "t1" rfl (by decide)⟩

/-- C3: over any sequence of resolver calls in one process (cache starts
empty), a successful call leaves the token in the cache, and every later
call returns that same token as a cache hit without contacting the
backend; a failed call has contacted the backend and left the cache empty
— so the cache is written exactly once, at the first success. -/
theorem c3_cache_written_once (parse : String → Option PyVal)
    (resps : List (Option String)) :
    (∀ (i : Nat) (t : String) (b : Bool) (c : Option String),
      (runLoads parse Option.none resps)[i]? = some (Except.ok t, b, c) →
      c = some t ∧
      ∀ j, i < j → j < resps.length →
        (runLoads parse Option.none resps)[j]? = some (Except.ok t, false, some t)) ∧
    (∀ (i : Nat) (e : RErr) (b : Bool) (c : Option String),
      (runLoads parse Option.none resps)[i]? = some (Except.error e, b, c) →
      b = true ∧ c = Option.none) := by
  induction resps with
  | nil =>
    constructor
    · intro i t b c h
      simp [runLoads] at h
    · intro i e b c h
      simp [runLoads] at h
  | cons r rs ih =>
    rcases loadTokenFresh_cases parse Option.none r with ⟨t0, heq, ht0⟩ | ⟨e0, heq⟩
    · -- the first call resolves and caches a non-empty token t0
      have hrun : runLoads parse Option.none (r :: rs) =
          (Except.ok t0, true, some t0) ::
            rs.map (fun _ => (Except.ok t0, false, some t0)) := by
        simp only [runLoads]
        rw [show load_token parse Option.none r = (Except.ok t0, some t0, true) from heq]
        rw [runLoads_hit parse rs t0 ht0]
      have hM1 : ∀ (n : Nat) (x : Except RErr String × Bool × Option String),
          (rs.map (fun _ => ((Except.ok t0 : Except RErr String), false, some t0)))[n]? =
            some x →
          x = (Except.ok t0, false, some t0) := by
        intro n x hx
        rw [List.getElem?_map] at hx
        cases hrn : rs[n]? with
        | none => rw [hrn] at hx; exact Option.noConfusion hx
        | some y => rw [hrn] at hx; exact (Option.some.inj hx).symm
      have hM2 : ∀ (n : Nat), n < rs.length →
          (rs.map (fun _ => ((Except.ok t0 : Except RErr String), false, some t0)))[n]? =
            some (Except.ok t0, false, some t0) := by
        intro n hn
        rw [List.getElem?_map, List.getElem?_eq_getElem hn]
        rfl
      have hlen : (r :: rs).length = rs.length + 1 := rfl
      constructor
      · intro i t b c h
        rw [hrun] at h
        have hty : t = t0 ∧ c = some t := by
          cases i with
          | zero =>
            rw [List.getElem?_cons_zero] at h
            have h' := Option.some.inj h
            injection h' with h1 h23
            injection h23 with h2 h3
            injection h1 with h1
            exact ⟨h1.symm, by rw [← h3, h1]⟩
          | succ n =>
            rw [List.getElem?_cons_succ] at h
            have h' := (hM1 n _ h).symm
            injection h' with h1 h23
            injection h23 with h2 h3
            injection h1 with h1
            exact ⟨h1.symm, by rw [← h3, h1]⟩
        refine ⟨hty.2, ?_⟩
        intro j hij hjlen
        cases j with
        | zero => omega
        | succ j' =>
          rw [hrun, List.getElem?_cons_succ, hty.1]
          exact hM2 j' (by rw [hlen] at hjlen; omega)
      · intro i e b c h
        rw [hrun] at h
        cases i with
        | zero =>
          rw [List.getElem?_cons_zero] at h
          have h' := Option.some.inj h
          injection h' with h1 h23
          exact Except.noConfusion h1
        | succ n =>
          rw [List.getElem?_cons_succ] at h
          have h' := hM1 n _ h
          injection h' with h1 h23
          exact Except.noConfusion h1
    · -- the first call fails: the cache stays empty and the tail behaves
      -- like a fresh trace
      have hrun : runLoads parse Option.none (r :: rs) =
          (Except.error e0, true, Option.none) :: runLoads parse Option.none rs := by
        simp only [runLoads]
        rw [show load_token parse Option.none r =
          (Except.error e0, Option.none, true) from heq]
      have hlen : (r :: rs).length = rs.length + 1 := rfl
      constructor
      · intro i t b c h
        rw [hrun] at h
        cases i with
        | zero =>
          rw [List.getElem?_cons_zero] at h
          have h' := Option.some.inj h
          injection h' with h1 h23
          exact Except.noConfusion h1
        | succ n =>
          rw [List.getElem?_cons_succ] at h
          obtain ⟨hc, hall⟩ := ih.1 n t b c h
          refine ⟨hc, ?_⟩
          intro j hij hjlen
          cases j with
          | zero => omega
          | succ j' =>
            rw [hrun, List.getElem?_cons_succ]
            exact hall j' (by omega) (by rw [hlen] at hjlen; omega)
      · intro i e b c h
        rw [hrun] at h
        cases i with
        | zero =>
          rw [List.getElem?_cons_zero] at h
          have h' := Option.some.inj h
          injection h' with h1 h23
          injection h23 with h2 h3
          exact ⟨h2.symm, h3.symm⟩
        | succ n =>
          rw [List.getElem?_cons_succ] at h
          exact ih.2 n e b c h

/-- Witness for C3: with two warm calls, the second is answered from the
cache without contacting the backend. -/
theorem c3_witness :
    (runLoads parseNever Option.none [some "tok1", some "x"])[1]? =
      some (Except.ok "tok1", false, some "tok1") :=
  ((c3_cache_written_once parseNever [some "tok1", some "x"]).1 0 "tok1" true
    (some "tok1") rfl).2 1 (by decide) (by decide)

/-- C8: a failure of credential resolution, of the fetch, or of the
payload-shape check propagates out of the handler with no sink write; and
any sink write implies the whole sort–truncate–transform pipeline
succeeded, the single written object being the payload it built. -/
theorem c8_no_partial_writes (parse : String → Option PyVal) (cfg : Config)
    (cache : Option String) (secretResp : Option String) (http : HttpOutcome)
    (genNow : String) (fetchNow : Nat → String) :
    (∀ e, (load_token parse cache secretResp).1 = Except.error e →
      lambda_handler parse cfg cache secretResp http genNow fetchNow =
        (Except.error e, [], (load_token parse cache secretResp).2.1)) ∧
    (∀ t e, (load_token parse cache secretResp).1 = Except.ok t →
      github_request parse http = Except.error e →
      lambda_handler parse cfg cache secretResp http genNow fetchNow =
        (Except.error e, [], (load_token parse cache secretResp).2.1)) ∧
    (∀ t v, (load_token parse cache secretResp).1 = Except.ok t →
      github_request parse http = Except.ok v →
      (∀ xs, v ≠ PyVal.list xs) →
      lambda_handler parse cfg cache secretResp http genNow fetchNow =
        (Except.error RErr.unexpectedPayload, [],
          (load_token parse cache secretResp).2.1)) ∧
    (∀ pc, pc ∈ (lambda_handler parse cfg cache secretResp http genNow fetchNow).2.1 →
      ∃ repos sortedRepos pl,
        github_request parse http = Except.ok (PyVal.list repos) ∧
        pySortDesc repos = some sortedRepos ∧
        build_payload genNow fetchNow (pySliceTo cfg.repoLimit sortedRepos) = some pl ∧
        (lambda_handler parse cfg cache secretResp http genNow fetchNow).2.1 =
          [{ bucket := cfg.bucket, key := cfg.objectKey, body := pl }] ∧
        (lambda_handler parse cfg cache secretResp http genNow fetchNow).1 =
          Except.ok { status := "ok", bucket := cfg.bucket, key := cfg.objectKey,
                      count := (pySliceTo cfg.repoLimit sortedRepos).length }) := by
  rcases hval : load_token parse cache secretResp with ⟨res0, cacheA, called⟩
  refine ⟨?_, ?_, ?_, ?_⟩
  · intro e he
    have he' : res0 = Except.error e := he
    subst he'
    simp only [lambda_handler, hval]
  · intro t e hok hgr
    have hok' : res0 = Except.ok t := hok
    subst hok'
    simp only [lambda_handler, hval, hgr]
  · intro t v hok hgr hnl
    have hok' : res0 = Except.ok t := hok
    subst hok'
    cases v with
    | list xs => exact absurd rfl (hnl xs)
    | none => simp only [lambda_handler, hval, hgr]
    | bool b => simp only [lambda_handler, hval, hgr]
    | int n => simp only [lambda_handler, hval, hgr]
    | str s => simp only [lambda_handler, hval, hgr]
    | dict kvs => simp only [lambda_handler, hval, hgr]
  · intro pc hpc
    cases res0 with
    | error e =>
      simp only [lambda_handler, hval] at hpc
      exact absurd hpc (List.not_mem_nil pc)
    | ok t =>
      cases hgr : github_request parse http with
      | error e =>
        simp only [lambda_handler, hval, hgr] at hpc
        exact absurd hpc (List.not_mem_nil pc)
      | ok v =>
        cases v with
        | none =>
          simp only [lambda_handler, hval, hgr] at hpc
          exact absurd hpc (List.not_mem_nil pc)
        | bool b =>
          simp only [lambda_handler, hval, hgr] at hpc
          exact absurd hpc (List.not_mem_nil pc)
        | int n =>
          simp only [lambda_handler, hval, hgr] at hpc
          exact absurd hpc (List.not_mem_nil pc)
        | str s =>
          simp only [lambda_handler, hval, hgr] at hpc
          exact absurd hpc (List.not_mem_nil pc)
        | dict kvs =>
          simp only [lambda_handler, hval, hgr] at hpc
          exact absurd hpc (List.not_mem_nil pc)
        | list repos =>
          cases hsort : pySortDesc repos with
          | none =>
            simp only [lambda_handler, hval, hgr, hsort] at hpc
            exact absurd hpc (List.not_mem_nil pc)
          | some sortedRepos =>
            cases hbp : build_payload genNow fetchNow
                (pySliceTo cfg.repoLimit sortedRepos) with
            | none =>
              simp only [lambda_handler, hval, hgr, hsort, hbp] at hpc
              exact absurd hpc (List.not_mem_nil pc)
            | some pl =>
              refine ⟨repos, sortedRepos, pl, rfl, hsort, hbp, ?_, ?_⟩
              · simp only [lambda_handler, hval, hgr, hsort, hbp]
              · simp only [lambda_handler, hval, hgr, hsort, hbp]

/-- Witness for C8: a missing secret propagates out of the handler and
nothing is written to the sink. -/
theorem c8_witness :
    lambda_handler parseNever cfgFix Option.none Option.none
        (HttpOutcome.netFailure "dns down") "G" (fun _ => "F") =
      (Except.error RErr.secretMissing, [], Option.none) :=
  (c8_no_partial_writes parseNever cfgFix Option.none Option.none
    (HttpOutcome.netFailure "dns down") "G" (fun _ => "F")).1 RErr.secretMissing rfl

/-- C7 counterexample: the backend returning the empty string is a string
payload whose trimmed form has zero length, so the claim requires the
empty-secret error; the code's truthiness test `if not secret_string`
classifies it as the missing-payload error instead. -/
theorem c7_counterexample :
    (load_token parseNever Option.none (some "")).1 = Except.error RErr.secretMissing ∧
    strip "" = "" ∧
    RErr.secretMissing ≠ RErr.secretEmpty :=
  ⟨rfl, rfl, by decide⟩

/-- C7 (amended): resolution fails with the missing-payload error exactly
when the backend returns no string payload or the empty string; with the
empty-secret error exactly when the payload is a non-empty string whose
stripped form is empty; with the no-token error exactly when the stripped
payload starts with a brace, parses as JSON and yields no candidate; and a
brace-led payload that fails to parse is returned as a literal token. -/
theorem c7_error_taxonomy (parse : String → Option PyVal) (resp : Option String) :
    ((load_token parse Option.none resp).1 = Except.error RErr.secretMissing ↔
      (resp = Option.none ∨ resp = some "")) ∧
    ((load_token parse Option.none resp).1 = Except.error RErr.secretEmpty ↔
      (∃ s, resp = some s ∧ s ≠ "" ∧ strip s = "")) ∧
    ((load_token parse Option.none resp).1 = Except.error RErr.secretJsonNoToken ↔
      (∃ s p, resp = some s ∧ strip s ≠ "" ∧ startsLbrace (strip s) = true ∧
        parse (strip s) = some p ∧ candidateOf p = Option.none)) ∧
    (∀ s, resp = some s → strip s ≠ "" → startsLbrace (strip s) = true →
      parse (strip s) = Option.none →
      (load_token parse Option.none resp).1 = Except.ok (strip s)) := by
  cases resp with
  | none =>
    refine ⟨?_, ?_, ?_, ?_⟩ <;> simp [load_token, loadTokenFresh]
  | some s =>
    by_cases hse : s = ""
    · subst hse
      have h0 : strip "" = "" := rfl
      refine ⟨?_, ?_, ?_, ?_⟩ <;> simp [load_token, loadTokenFresh, h0]
    · by_cases hst : strip s = ""
      · have hred : (load_token parse Option.none (some s)).1 =
            Except.error RErr.secretEmpty := by
          show (loadTokenFresh parse Option.none (some s)).1 = _
          simp only [loadTokenFresh]
          rw [if_neg hse, if_pos hst]
        refine ⟨?_, ?_, ?_, ?_⟩
        · rw [hred]; simp [hse]
        · rw [hred]; simp [hse, hst]
        · rw [hred]; simp [hst]
        · intro s' hs' h1 _ _
          cases Option.some.inj hs'
          exact absurd hst h1
      · cases hsl : startsLbrace (strip s) with
        | false =>
          have hred : (load_token parse Option.none (some s)).1 =
              Except.ok (strip s) := by
            show (loadTokenFresh parse Option.none (some s)).1 = _
            simp only [loadTokenFresh]
            rw [if_neg hse, if_neg hst,
              if_neg (show ¬(startsLbrace (strip s) = true) by rw [hsl]; decide)]
          refine ⟨?_, ?_, ?_, ?_⟩
          · rw [hred]; simp [hse]
          · rw [hred]; simp [hse, hst]
          · rw [hred]; simp [hsl]
          · intro s' hs' _ _ _
            cases Option.some.inj hs'
            exact hred
        | true =>
          cases hp : parse (strip s) with
          | none =>
            have hred : (load_token parse Option.none (some s)).1 =
                Except.ok (strip s) := by
              show (loadTokenFresh parse Option.none (some s)).1 = _
              simp only [loadTokenFresh]
              rw [if_neg hse, if_neg hst, if_pos hsl, hp]
            refine ⟨?_, ?_, ?_, ?_⟩
            · rw [hred]; simp [hse]
            · rw [hred]; simp [hse, hst]
            · rw [hred]; simp [hp]
            · intro s' hs' _ _ _
              cases Option.some.inj hs'
              exact hred
          | some p =>
            cases hc : candidateOf p with
            | none =>
              have hred : (load_token parse Option.none (some s)).1 =
                  Except.error RErr.secretJsonNoToken := by
                show (loadTokenFresh parse Option.none (some s)).1 = _
                simp only [loadTokenFresh]
                rw [if_neg hse, if_neg hst, if_pos hsl, hp]
                simp only [hc]
              refine ⟨?_, ?_, ?_, ?_⟩
              · rw [hred]; simp [hse]
              · rw [hred]; simp [hse, hst]
              · rw [hred]
                constructor
                · intro _
                  exact ⟨s, p, rfl, hst, hsl, hp, hc⟩
                · intro _
                  rfl
              · intro s' hs' _ _ h3
                cases Option.some.inj hs'
                rw [hp] at h3
                exact Option.noConfusion h3
            | some cand =>
              have hred : (load_token parse Option.none (some s)).1 =
                  Except.ok cand := by
                show (loadTokenFresh parse Option.none (some s)).1 = _
                simp only [loadTokenFresh]
                rw [if_neg hse, if_neg hst, if_pos hsl, hp]
                simp only [hc]
              refine ⟨?_, ?_, ?_, ?_⟩
              · rw [hred]; simp [hse]
              · rw [hred]; simp [hse, hst]
              · rw [hred]; simp [hp, hc]
              · intro s' hs' _ _ h3
                cases Option.some.inj hs'
                rw [hp] at h3
                exact Option.noConfusion h3

/-- C2: for every fetched list of RawRepository records (per the data
model, `pushed_at` is a string or absent, so every sort key is a string),
the sort step succeeds and produces a stable descending reordering: the
output is a permutation of the input sorted so that later records never
have strictly greater keys, records with equal keys keep their relative
order (filtering by any key value is unchanged), a record lacking the
`pushed_at` key gets the empty-string key, and when `repoLimit` is at
least the fetched count the truncation keeps every record. -/
theorem c2_sort_stable_desc (repos : List PyVal) (limit : Int)
    (h : ∀ r ∈ repos, isGoodRepo r = true) :
    ∃ s, pySortDesc repos = some s ∧
      s.Perm repos ∧
      List.Sorted descRel s ∧
      (∀ k, s.filter (fun r => decide (keyData r = k)) =
        repos.filter (fun r => decide (keyData r = k))) ∧
      (∀ r ∈ repos, sortKeyOf r = some (PyVal.str ⟨keyData r⟩)) ∧
      (∀ kvs, lookupStr kvs "pushed_at" = Option.none → keyData (PyVal.dict kvs) = []) ∧
      ((repos.length : Int) ≤ limit → pySliceTo limit s = s) := by
  refine ⟨List.insertionSort descRel repos, pySortDesc_good repos h,
    List.perm_insertionSort descRel repos, List.sorted_insertionSort descRel repos,
    fun k => filter_insertionSort k repos,
    fun r hr => good_sortKey r (h r hr), ?_, ?_⟩
  · intro kvs hk
    simp only [keyData, sortKeyOf, getD, hk]
  · intro hlim
    have h0 : (0 : Int) ≤ limit := le_trans (Int.natCast_nonneg repos.length) hlim
    have hlen : (List.insertionSort descRel repos).length = repos.length :=
      List.length_insertionSort descRel repos
    unfold pySliceTo
    rw [if_pos h0]
    apply List.take_of_length_le
    rw [hlen]
    omega

/-- Witness for C2 on a concrete two-record list (one record lacking
`pushed_at`) with `repoLimit = 5`. -/
theorem c2_witness :
    ∃ s, pySortDesc [repoPushed2023, repoNoPush, repoPushed2024] = some s ∧
      s.Perm [repoPushed2023, repoNoPush, repoPushed2024] ∧
      List.Sorted descRel s ∧
      (∀ k, s.filter (fun r => decide (keyData r = k)) =
        [repoPushed2023, repoNoPush, repoPushed2024].filter
          (fun r => decide (keyData r = k))) ∧
      (∀ r ∈ [repoPushed2023, repoNoPush, repoPushed2024],
        sortKeyOf r = some (PyVal.str ⟨keyData r⟩)) ∧
      (∀ kvs, lookupStr kvs "pushed_at" = Option.none → keyData (PyVal.dict kvs) = []) ∧
      (([repoPushed2023, repoNoPush, repoPushed2024].length : Int) ≤ 5 →
        pySliceTo 5 s = s) := by
  refine c2_sort_stable_desc [repoPushed2023, repoNoPush, repoPushed2024] 5 ?_
  intro r hr
  rcases List.mem_cons.mp hr with rfl | hr
  · rfl
  rcases List.mem_cons.mp hr with rfl | hr
  · rfl
  rcases List.mem_cons.mp hr with rfl | hr
  · rfl
  · cases hr

/-- Witness for the amended C7: a brace-led payload that fails to parse is
returned as a literal plain-text token, not an error. -/
theorem c7_witness :
    (load_token parseNever Option.none (some "\x7bnot-json")).1 =
      Except.ok "\x7bnot-json" :=
  (c7_error_taxonomy parseNever (some "\x7bnot-json")).2.2.2
    "\x7bnot-json" rfl (by decide) rfl rfl

end GithubSync
